import Mathlib

/-!
Shallow embedding of src/providers/bitcoin/BitcoinLedgerProvider.js
(repository chainabstractionlayer).

Conventions of the embedding:
* JavaScript numbers appearing here are non-negative integers in every
  reachable state, so they are modelled as Nat.
* asynchronous calls (await) are modelled as plain function application;
  the external node-query oracles (getUnspentTransactions, isUsedAddress)
  are modelled as explicit function parameters.
* addresses derived from a derivation index are identified with that
  index: the oracles are keyed by index.
* a thrown JS error is modelled as Except.error with a constructor of Err;
  while-loops whose body cannot throw are modelled with explicit fuel,
  Option.none standing for non-termination within the given fuel.
* a JS expression that evaluates to NaN (multiplication by an undefined
  argument) is modelled as Option.none, and a comparison against NaN is
  false, as in JS.
-/

namespace ChainAbstraction

/-- Error taxonomy of the specification; a generic thrown Error of the
source is mapped to the taxonomy class the specification assigns to it. -/
inductive Err where
  | configurationError
  | insufficientFunds
  | noUnusedAddressFound
deriving DecidableEq, Repr

/-- Line 113-115: calculateFee (numInputs, numOutputs, feePerByte). -/
def calculateFee (numInputs numOutputs feePerByte : Nat) : Nat :=
  ((numInputs * 148) + (numOutputs * 34) + 10) * feePerByte

/-- Network parameters relevant to generateScript: the two version bytes.
The source compares the hex string of the first decoded byte; here the
byte is carried as a Nat. -/
structure NetworkParams where
  pubKeyHash : Nat
  scriptHash : Nat
deriving DecidableEq, Repr

/-- Modelled from the spec: base58.decode and addressToPubKeyHash live in
src/crypto and BitcoinUtil, which are not in the source slice; per the
specification an address is fully determined by its decoded version byte
(first decoded byte) and its public-key hash payload, so an address is
represented by exactly those two fields. -/
structure DecodedAddress where
  version : Nat
  pubKeyHash : List Nat
deriving DecidableEq, Repr

/-- Lines 88-111: generateScript. The version byte is compared against the
network parameters; the P2PKH and P2SH locking scripts are byte lists
(the source builds the same bytes as a hex string). The generic throw at
line 109 is the ConfigurationError of the specification taxonomy. -/
def generateScript (net : NetworkParams) (addr : DecodedAddress) : Except Err (List Nat) :=
  if addr.version = net.pubKeyHash then
    Except.ok ([0x76, 0xa9, 0x14] ++ addr.pubKeyHash ++ [0x88, 0xac])
  else if addr.version = net.scriptHash then
    Except.ok ([0xa9, 0x14] ++ addr.pubKeyHash ++ [0x87])
  else
    Except.error Err.configurationError

/-- C3 counterexample: with one input, two outputs and feePerByte 3 the
source formula gives 678, not the 888 the claim asserts. -/
theorem calculateFee_two_output_not_888 :
    calculateFee 1 2 3 = 678 ∧ calculateFee 1 2 3 ≠ 888 := by
  decide

/-- C3 (amended): calculateFee (n, m, f) = (n * 148 + m * 34 + 10) * f for
all arguments; for one input and feePerByte 3 the no-change fee (one
output) is 576 and the with-change fee (two outputs) is 678. -/
theorem calculateFee_formula :
    (∀ n m f, calculateFee n m f = (n * 148 + m * 34 + 10) * f) ∧
    calculateFee 1 1 3 = 576 ∧ calculateFee 1 2 3 = 678 :=
  ⟨fun _ _ _ => rfl, rfl, rfl⟩

/-- C8: calculateFee is monotone non-decreasing in each argument separately
and strictly increasing in feePerByte for fixed positive counts. -/
theorem calculateFee_monotone :
    (∀ a b m f, a ≤ b → calculateFee a m f ≤ calculateFee b m f) ∧
    (∀ n a b f, a ≤ b → calculateFee n a f ≤ calculateFee n b f) ∧
    (∀ n m a b, a ≤ b → calculateFee n m a ≤ calculateFee n m b) ∧
    (∀ n m a b, 0 < n → 0 < m → a < b → calculateFee n m a < calculateFee n m b) := by
  refine ⟨?_, ?_, ?_, ?_⟩
  · intro a b m f h
    exact Nat.mul_le_mul (by omega) (Nat.le_refl f)
  · intro n a b f h
    exact Nat.mul_le_mul (by omega) (Nat.le_refl f)
  · intro n m a b h
    exact Nat.mul_le_mul (Nat.le_refl _) h
  · intro n m a b hn hm h
    exact Nat.mul_lt_mul_of_pos_left h (by omega)

/-- Witness for C8 at concrete arguments. -/
theorem calculateFee_monotone_witness :
    calculateFee 1 1 3 ≤ calculateFee 2 1 3 ∧
    calculateFee 1 1 3 ≤ calculateFee 1 2 3 ∧
    calculateFee 1 1 3 ≤ calculateFee 1 1 4 ∧
    calculateFee 1 1 3 < calculateFee 1 1 4 :=
  ⟨calculateFee_monotone.1 1 2 1 3 (by decide),
   calculateFee_monotone.2.1 1 1 2 3 (by decide),
   calculateFee_monotone.2.2.1 1 1 3 4 (by decide),
   calculateFee_monotone.2.2.2 1 1 3 4 (by decide) (by decide) (by decide)⟩

/-- C5: the script form is decided solely by the decoded version byte: the
pay-to-pubkey-hash version byte yields the P2PKH script, the
pay-to-script-hash version byte yields the P2SH script, any other version
byte is a ConfigurationError rather than a silent default. -/
theorem generateScript_by_version (net : NetworkParams) (addr : DecodedAddress) :
    (addr.version = net.pubKeyHash →
      generateScript net addr =
        Except.ok ([0x76, 0xa9, 0x14] ++ addr.pubKeyHash ++ [0x88, 0xac])) ∧
    (addr.version ≠ net.pubKeyHash → addr.version = net.scriptHash →
      generateScript net addr =
        Except.ok ([0xa9, 0x14] ++ addr.pubKeyHash ++ [0x87])) ∧
    (addr.version ≠ net.pubKeyHash → addr.version ≠ net.scriptHash →
      generateScript net addr = Except.error Err.configurationError) := by
  refine ⟨?_, ?_, ?_⟩
  · intro h
    simp [generateScript, h]
  · intro h1 h2
    unfold generateScript
    rw [if_neg h1, if_pos h2]
  · intro h1 h2
    unfold generateScript
    rw [if_neg h1, if_neg h2]

/-- Witness for C5 on the mainnet version bytes 0x00 and 0x05 and a
foreign version byte 0x6f. -/
theorem generateScript_by_version_witness :
    generateScript ⟨0x00, 0x05⟩ ⟨0x00, [1, 2]⟩ =
      Except.ok ([0x76, 0xa9, 0x14] ++ [1, 2] ++ [0x88, 0xac]) ∧
    generateScript ⟨0x00, 0x05⟩ ⟨0x05, [1, 2]⟩ =
      Except.ok ([0xa9, 0x14] ++ [1, 2] ++ [0x87]) ∧
    generateScript ⟨0x00, 0x05⟩ ⟨0x6f, [1, 2]⟩ =
      Except.error Err.configurationError :=
  ⟨(generateScript_by_version ⟨0x00, 0x05⟩ ⟨0x00, [1, 2]⟩).1 rfl,
   (generateScript_by_version ⟨0x00, 0x05⟩ ⟨0x05, [1, 2]⟩).2.1 (by decide) rfl,
   (generateScript_by_version ⟨0x00, 0x05⟩ ⟨0x6f, [1, 2]⟩).2.2 (by decide) (by decide)⟩

/-- Lines 47-61: getUnusedAddress (awaits elided). The while loop derives
the address at addressIndex, asks the isUsedAddress oracle, and stops only
when the oracle answers false; the source never increments addressIndex
inside the loop and has no scan bound (the _unusedAddressCountdown field
set in the constructor is never read). Fuel bounds the loop for the
embedding; none models not having terminated within the fuel. The
returned address is identified with its derivation index. -/
def getUnusedAddress (isUsed : Nat → Bool) (addressIndex : Nat) : Nat → Option Nat
  | 0 => none
  | fuel + 1 =>
    if isUsed addressIndex then getUnusedAddress isUsed addressIndex fuel
    else some addressIndex

/-- Oracle of the C4 failing input: only the address at index 0 is used,
every later index is unused. -/
def usedAtZeroOnly : Nat → Bool := fun i => i == 0

/-- C4: the scan is stuck at the start index. With an oracle that marks
index 0 used and index 1 unused, getUnusedAddress starting at 0 never
returns for any amount of fuel: it neither reaches the unused address at
index 1 nor fails with NoUnusedAddressFound (no error path exists). -/
theorem getUnusedAddress_stuck_at_start :
    usedAtZeroOnly 1 = false ∧
    ∀ fuel, getUnusedAddress usedAtZeroOnly 0 fuel = none := by
  refine ⟨rfl, ?_⟩
  intro fuel
  induction fuel with
  | zero => rfl
  | succ n ih => simpa [getUnusedAddress, usedAtZeroOnly] using ih

/-- Minimal big-endian hex digit list of a number, the digit sequence of
BigNumber(amount).toString(16) at line 64. The first argument is
structural fuel; the number itself is always enough fuel because the
value shrinks by a factor 16 each step. -/
def hexDigitsBEAux : Nat → Nat → List Nat
  | 0, n => [n % 16]
  | fuel + 1, n =>
    if n < 16 then [n] else hexDigitsBEAux fuel (n / 16) ++ [n % 16]

/-- Hex digit list of BigNumber(amount).toString(16): minimal length, big
endian, and the single digit 0 for the value 0. -/
def hexDigitsBE (n : Nat) : List Nat := hexDigitsBEAux n n

/-- Modelled from the spec: padHexStart lives in src/crypto, which is not
in the source slice; per its use at line 65 and the specification wording
it zero-pads the hex digit string at the start up to the requested number
of hex digits. -/
def padHexStart (digits : List Nat) (len : Nat) : List Nat :=
  List.replicate (len - digits.length) 0 ++ digits

/-- Buffer.from(hex) at line 66: consecutive pairs of hex digits become
one byte, high digit first; a trailing unpaired digit is dropped. -/
def bufferFromHex : List Nat → List Nat
  | h1 :: h2 :: rest => (h1 * 16 + h2) :: bufferFromHex rest
  | _ => []

/-- Lines 63-68: getAmountBuffer: hex digits of the amount, zero-padded at
the start to 16 digits, parsed into bytes, then reversed in place. -/
def getAmountBuffer (amount : Nat) : List Nat :=
  (bufferFromHex (padHexStart (hexDigitsBE amount) 16)).reverse

/-- Little-endian fixed-width base-16 digit expansion, the reference
encoding the hex-string pipeline is compared against. -/
def leHex (n : Nat) : Nat → List Nat
  | 0 => []
  | k + 1 => n % 16 :: leHex (n / 16) k

/-- Little-endian fixed-width base-256 byte expansion. -/
def leBytes (n : Nat) : Nat → List Nat
  | 0 => []
  | k + 1 => n % 256 :: leBytes (n / 256) k

lemma hexDigitsBEAux_congr :
    ∀ f1 f2 n, n ≤ f1 → n ≤ f2 → hexDigitsBEAux f1 n = hexDigitsBEAux f2 n := by
  intro f1
  induction f1 with
  | zero =>
    intro f2 n h1 h2
    have hn : n = 0 := Nat.le_zero.mp h1
    subst hn
    cases f2 with
    | zero => rfl
    | succ g => simp [hexDigitsBEAux]
  | succ f ih =>
    intro f2 n h1 h2
    by_cases hlt : n < 16
    · cases f2 with
      | zero =>
        have hn : n = 0 := Nat.le_zero.mp h2
        subst hn
        simp [hexDigitsBEAux]
      | succ g => simp [hexDigitsBEAux, hlt]
    · have h16 : 16 ≤ n := Nat.le_of_not_lt hlt
      cases f2 with
      | zero => omega
      | succ g =>
        have hdiv : n / 16 < n := Nat.div_lt_self (by omega) (by omega)
        simp only [hexDigitsBEAux, if_neg hlt]
        rw [ih g (n / 16) (by omega) (by omega)]

lemma hexDigitsBE_lt {n : Nat} (h : n < 16) : hexDigitsBE n = [n] := by
  unfold hexDigitsBE
  cases n with
  | zero => rfl
  | succ k => simp [hexDigitsBEAux, h]

lemma hexDigitsBE_ge {n : Nat} (h : 16 ≤ n) :
    hexDigitsBE n = hexDigitsBE (n / 16) ++ [n % 16] := by
  unfold hexDigitsBE
  cases n with
  | zero => omega
  | succ k =>
    have hdiv : (k + 1) / 16 < k + 1 := Nat.div_lt_self (by omega) (by omega)
    simp only [hexDigitsBEAux, if_neg (Nat.not_lt.mpr h)]
    rw [hexDigitsBEAux_congr k ((k + 1) / 16) ((k + 1) / 16) (by omega) (by omega)]

lemma leHex_zero : ∀ k, leHex 0 k = List.replicate k 0 := by
  intro k
  induction k with
  | zero => rfl
  | succ m ih => simp [leHex, ih, List.replicate_succ]

lemma leHex_length : ∀ k n, (leHex n k).length = k := by
  intro k
  induction k with
  | zero => intro n; rfl
  | succ m ih => intro n; simp [leHex, ih]

/-- The zero-padded minimal hex string equals the reversed little-endian
fixed-width expansion whenever the value fits in the width. -/
lemma padHexStart_hexDigitsBE :
    ∀ k n, 0 < k → n < 16 ^ k →
      padHexStart (hexDigitsBE n) k = (leHex n k).reverse := by
  intro k
  induction k with
  | zero => intro n hk _; omega
  | succ k ih =>
    intro n _ hn
    by_cases hlt : n < 16
    · rw [hexDigitsBE_lt hlt]
      have hmod : n % 16 = n := Nat.mod_eq_of_lt hlt
      have hdiv : n / 16 = 0 := Nat.div_eq_of_lt hlt
      simp [padHexStart, leHex, hmod, hdiv, leHex_zero, List.reverse_replicate]
    · have h16 : 16 ≤ n := Nat.le_of_not_lt hlt
      have hk : 0 < k := by
        rcases Nat.eq_zero_or_pos k with h0 | h0
        · subst h0; simp at hn; omega
        · exact h0
      have hn2 : n / 16 < 16 ^ k := by
        rw [Nat.div_lt_iff_lt_mul (by omega)]
        calc n < 16 ^ (k + 1) := hn
        _ = 16 ^ k * 16 := by rw [pow_succ]
      rw [hexDigitsBE_ge h16]
      have hstep : padHexStart (hexDigitsBE (n / 16) ++ [n % 16]) (k + 1) =
          padHexStart (hexDigitsBE (n / 16)) k ++ [n % 16] := by
        unfold padHexStart
        rw [List.length_append]
        simp [Nat.succ_sub_succ]
      rw [hstep, ih (n / 16) hk hn2]
      show (leHex (n / 16) k).reverse ++ [n % 16] = (leHex n (k + 1)).reverse
      rw [show leHex n (k + 1) = n % 16 :: leHex (n / 16) k from rfl,
        List.reverse_cons]

lemma bufferFromHex_append :
    ∀ m (xs ys : List Nat), xs.length = 2 * m →
      bufferFromHex (xs ++ ys) = bufferFromHex xs ++ bufferFromHex ys := by
  intro m
  induction m with
  | zero =>
    intro xs ys h
    have : xs = [] := List.length_eq_zero.mp (by omega)
    subst this
    simp [bufferFromHex]
  | succ m ih =>
    intro xs ys h
    match xs with
    | [] => simp at h
    | [a] => simp at h; omega
    | a :: b :: rest =>
      have hlen : rest.length = 2 * m := by
        have h2 := h
        simp only [List.length_cons] at h2
        omega
      show (a * 16 + b) :: bufferFromHex (rest ++ ys) =
          ((a * 16 + b) :: bufferFromHex rest) ++ bufferFromHex ys
      rw [List.cons_append, ih rest ys hlen]

/-- Pairing the reversed little-endian hex expansion into bytes and
reversing yields the little-endian byte expansion. -/
lemma bufferFromHex_leHex :
    ∀ m n, (bufferFromHex ((leHex n (2 * m)).reverse)).reverse = leBytes n m := by
  intro m
  induction m with
  | zero => intro n; rfl
  | succ m ih =>
    intro n
    have hsplit : leHex n (2 * (m + 1)) =
        n % 16 :: (n / 16) % 16 :: leHex (n / 256) (2 * m) := by
      rw [show 2 * (m + 1) = (2 * m + 1) + 1 by omega]
      show n % 16 :: leHex (n / 16) (2 * m + 1) = _
      rw [show leHex (n / 16) (2 * m + 1) =
        (n / 16) % 16 :: leHex (n / 16 / 16) (2 * m) from rfl]
      rw [Nat.div_div_eq_div_mul]
    rw [hsplit]
    rw [List.reverse_cons, List.reverse_cons, List.append_assoc]
    have hlen : ((leHex (n / 256) (2 * m)).reverse).length = 2 * m := by
      rw [List.length_reverse, leHex_length]
    rw [bufferFromHex_append m _ _ hlen]
    rw [show bufferFromHex ([(n / 16) % 16] ++ [n % 16]) =
      [(n / 16) % 16 * 16 + n % 16] from rfl]
    rw [List.reverse_append, ih (n / 256)]
    rw [show (n / 16) % 16 * 16 + n % 16 = n % 256 by omega]
    rfl

lemma leBytes_length : ∀ m n, (leBytes n m).length = m := by
  intro m
  induction m with
  | zero => intro n; rfl
  | succ k ih => intro n; simp [leBytes, ih]

/-- C10: for every amount below 2 to the 64, getAmountBuffer produces
exactly 8 bytes holding the amount in little-endian byte order (the
reverse of the zero-padded 16-hex-digit big-endian representation). -/
theorem getAmountBuffer_little_endian (n : Nat) (h : n < 2 ^ 64) :
    getAmountBuffer n = leBytes n 8 ∧ (getAmountBuffer n).length = 8 := by
  have h16 : n < 16 ^ 16 := by
    calc n < 2 ^ 64 := h
    _ = 16 ^ 16 := by norm_num
  have e1 : padHexStart (hexDigitsBE n) 16 = (leHex n 16).reverse :=
    padHexStart_hexDigitsBE 16 n (by omega) h16
  have e2 : getAmountBuffer n = leBytes n 8 := by
    unfold getAmountBuffer
    rw [e1]
    have := bufferFromHex_leHex 8 n
    simpa using this
  exact ⟨e2, by rw [e2, leBytes_length]⟩

/-- Witness for C10 at the amount 300. -/
theorem getAmountBuffer_little_endian_witness :
    getAmountBuffer 300 = leBytes 300 8 ∧ (getAmountBuffer 300).length = 8 :=
  getAmountBuffer_little_endian 300 (by decide)

/-- A UTXO as pushed by the selector: its value and the derivation path
(identified with the derivation index) stamped on it at line 131. -/
structure SelUtxo where
  value : Nat
  derivationPath : Nat
deriving DecidableEq, Repr

/-- Mutable state of the getUtxosForAmount loop: the running total, the
numOutputsOffset flag and the accumulated utxosToUse list. -/
structure SelState where
  currentAmount : Nat
  numOutputsOffset : Nat
  utxosToUse : List SelUtxo
deriving DecidableEq, Repr

/-- The reduce at lines 127 and 172: sum of a value list. -/
def sumValues (l : List Nat) : Nat := l.foldl (fun acc v => acc + v) 0

/-- Line 134 calls calculateFee without its feePerByte argument; in JS the
missing argument is undefined and the multiplication yields NaN. none
models that undefined/NaN fee. -/
def calculateFeeOpt (numInputs numOutputs : Nat) (feePerByte : Option Nat) : Option Nat :=
  feePerByte.map (fun f => calculateFee numInputs numOutputs f)

/-- JS greater-than where the right operand may be NaN (none): every
comparison against NaN is false. -/
def gtOpt (a : Nat) (b : Option Nat) : Bool :=
  match b with
  | none => false
  | some v => decide (v < a)

/-- Lines 129-142, the body of the forEach over one address batch, for one
utxo of value v. utxosValue is the whole batch total computed at line 127;
line 130 adds that batch total to currentAmount on every iteration. The
fee at line 134 is computed without feePerByte, so it is NaN and the
comparison at line 137 is always false; the totalCost updates at lines
139-140 are local to the iteration and discarded. -/
def selectStep (amount utxosValue path : Nat) (s : SelState) (v : Nat) : SelState :=
  let currentAmount := s.currentAmount + utxosValue
  let utxosToUse := s.utxosToUse ++ [⟨v, path⟩]
  let fees := calculateFeeOpt utxosToUse.length (s.numOutputsOffset + 1) none
  let totalCost := Option.map (fun f => amount + f) fees
  if s.numOutputsOffset == 0 && gtOpt currentAmount totalCost then
    ⟨currentAmount, 1, utxosToUse⟩
  else
    ⟨currentAmount, s.numOutputsOffset, utxosToUse⟩

/-- Lines 126-142: fetch the batch of UTXO values of one address, take the
batch total, and run the forEach over the batch. -/
def selectBatch (amount path : Nat) (utxos : List Nat) (s : SelState) : SelState :=
  utxos.foldl (selectStep amount (sumValues utxos) path) s

/-- Lines 123-145: the while loop of getUtxosForAmount. The guard is
currentAmount < amount only; each pass processes the batch of the current
address index and increments the index. Fuel bounds the loop for the
embedding; none models not having terminated within the fuel. The world
oracle maps a derivation index to the UTXO values of its address
(getUnspentTransactions). -/
def getUtxosForAmountGo (world : Nat → List Nat) (amount addressIndex : Nat)
    (s : SelState) : Nat → Option (List SelUtxo)
  | 0 => none
  | fuel + 1 =>
    if s.currentAmount < amount then
      getUtxosForAmountGo world amount (addressIndex + 1)
        (selectBatch amount addressIndex (world addressIndex) s) fuel
    else
      some s.utxosToUse

/-- Lines 117-148: getUtxosForAmount. The feePerByte parameter (default 3)
is never consulted by any state that survives an iteration, so it does not
appear in the loop state. -/
def getUtxosForAmount (world : Nat → List Nat) (amount : Nat)
    (fuel : Nat) : Option (List SelUtxo) :=
  getUtxosForAmountGo world amount 0 ⟨0, 0, []⟩ fuel

lemma selectStep_eq (amount utxosValue path : Nat) (s : SelState) (v : Nat) :
    selectStep amount utxosValue path s v =
      ⟨s.currentAmount + utxosValue, s.numOutputsOffset,
        s.utxosToUse ++ [⟨v, path⟩]⟩ := by
  simp [selectStep, calculateFeeOpt, gtOpt]

lemma foldl_selectStep_currentAmount (amount utxosValue path : Nat) :
    ∀ (l : List Nat) (s : SelState),
      (l.foldl (selectStep amount utxosValue path) s).currentAmount =
        s.currentAmount + l.length * utxosValue := by
  intro l
  induction l with
  | nil => intro s; simp
  | cons v t ih =>
    intro s
    rw [List.foldl_cons, ih, selectStep_eq, List.length_cons, Nat.succ_mul]
    show s.currentAmount + utxosValue + t.length * utxosValue =
      s.currentAmount + (t.length * utxosValue + utxosValue)
    omega

/-- C9: processing one address batch of k UTXOs with batch value sum V
adds k times V to the running total, not V. -/
theorem selectBatch_adds_batch_total_per_utxo
    (amount path : Nat) (utxos : List Nat) (s : SelState) :
    (selectBatch amount path utxos s).currentAmount =
      s.currentAmount + utxos.length * sumValues utxos :=
  foldl_selectStep_currentAmount amount (sumValues utxos) path utxos s

/-- World of the C1 failing input: the address at index 0 holds two UTXOs
of 5000 each, every other address is empty. -/
def worldTwo5000 : Nat → List Nat := fun i => if i = 0 then [5000, 5000] else []

/-- C1: on the failing input (target 15000, default feePerByte 3) the
selector terminates and returns the two 5000 UTXOs, whose value sum 10000
is below the target alone and below target plus
calculateFee(2, 1, 3): the double-counted running total (2 times the
batch sum 10000) satisfies the guard while the real value sum does not. -/
theorem getUtxosForAmount_below_target_plus_fee :
    getUtxosForAmount worldTwo5000 15000 5 =
      some [⟨5000, 0⟩, ⟨5000, 0⟩] ∧
    sumValues (List.map SelUtxo.value [(⟨5000, 0⟩ : SelUtxo), ⟨5000, 0⟩]) < 15000 ∧
    sumValues (List.map SelUtxo.value [(⟨5000, 0⟩ : SelUtxo), ⟨5000, 0⟩]) <
      15000 + calculateFee 2 1 3 := by
  refine ⟨?_, by decide, by decide⟩
  decide

/-- Empty world of the C2 failing input: every address has no UTXOs. -/
def worldEmpty : Nat → List Nat := fun _ => []

lemma getUtxosForAmountGo_empty_none :
    ∀ (fuel addressIndex : Nat) (s : SelState), s.currentAmount = 0 →
      getUtxosForAmountGo worldEmpty 1 addressIndex s fuel = none := by
  intro fuel
  induction fuel with
  | zero => intro addressIndex s _; rfl
  | succ f ih =>
    intro addressIndex s hs
    have hguard : s.currentAmount < 1 := by omega
    have hbatch : selectBatch 1 addressIndex (worldEmpty addressIndex) s = s := rfl
    show (if s.currentAmount < 1 then _ else _) = none
    rw [if_pos hguard, hbatch]
    exact ih (addressIndex + 1) s hs

/-- C2: the address scan has no bound and no failure path. When every
address is empty and the target is positive, the loop guard stays true
forever: for every fuel the loop has neither returned nor raised
InsufficientFundsError (the return type has no error alternative at all,
matching the absence of any throw in lines 117-148). -/
theorem getUtxosForAmount_unbounded_no_error :
    ∀ fuel, getUtxosForAmount worldEmpty 1 fuel = none := by
  intro fuel
  exact getUtxosForAmountGo_empty_none fuel 0 ⟨0, 0, []⟩ rfl

/-- One serialized transaction output as pushed at lines 196-201: the
8-byte amount buffer from getAmountBuffer and the locking script bytes. -/
structure TxOutput where
  amount : List Nat
  script : List Nat
deriving DecidableEq, Repr

/-- Lines 172-201, the fee/change/output logic of createSignedTransaction,
given the value list of the selected UTXOs, the send value, and the
recipient and change locking scripts (generateScript results, abstracted
as byte lists). The fee at line 173 hardcodes feePerByte 3; the throw at
line 185 is the InsufficientFundsError of the specification taxonomy; the
hasChange flag of lines 175-182 is inlined as its defining condition
totalAmount greater-than value plus the one-output fee. -/
def createSignedTransactionCore (sendScript changeScript : List Nat)
    (utxoValues : List Nat) (value : Nat) : Except Err (List TxOutput) :=
  let totalAmount := sumValues utxoValues
  let fee := calculateFee utxoValues.length 1 3
  let totalCost :=
    if value + fee < totalAmount then
      value + fee - fee + calculateFee utxoValues.length 2 3
    else value + fee
  if totalAmount < totalCost then
    Except.error Err.insufficientFunds
  else
    let changeAmount := totalAmount - totalCost
    let outputs := [TxOutput.mk (getAmountBuffer value) sendScript]
    let outputs :=
      if value + fee < totalAmount then
        outputs ++ [TxOutput.mk (getAmountBuffer changeAmount) changeScript]
      else outputs
    Except.ok outputs

/-- C7: whenever the selected value sum is below the send value plus the
fee recomputed for the selected input count and the output count the code
commits to (2 once the sum exceeds the no-change cost, else 1), the call
fails with InsufficientFundsError and assembles no outputs. -/
theorem createSignedTransaction_insufficient
    (sendScript changeScript utxoValues : List Nat) (value : Nat)
    (h : sumValues utxoValues <
      value + calculateFee utxoValues.length
        (if value + calculateFee utxoValues.length 1 3 < sumValues utxoValues
          then 2 else 1) 3) :
    createSignedTransactionCore sendScript changeScript utxoValues value =
      Except.error Err.insufficientFunds := by
  have harith :
      value + calculateFee utxoValues.length 1 3 -
        calculateFee utxoValues.length 1 3 +
        calculateFee utxoValues.length 2 3 =
        value + calculateFee utxoValues.length 2 3 := by omega
  by_cases hc :
      value + calculateFee utxoValues.length 1 3 < sumValues utxoValues
  · rw [if_pos hc] at h
    simp only [createSignedTransactionCore]
    rw [if_pos hc, harith, if_pos h]
  · rw [if_neg hc] at h
    simp only [createSignedTransactionCore]
    rw [if_neg hc, if_pos h]

/-- Witness for C7: one selected UTXO of value 100 cannot cover a send of
10000. -/
theorem createSignedTransaction_insufficient_witness :
    createSignedTransactionCore [118] [169] [100] 10000 =
      Except.error Err.insufficientFunds :=
  createSignedTransaction_insufficient [118] [169] [100] 10000 (by
    show sumValues [100] < 10000 + calculateFee (List.length [100])
      (if 10000 + calculateFee (List.length [100]) 1 3 < sumValues [100]
        then 2 else 1) 3
    decide)

/-- C6 counterexample: with one selected UTXO of value 10678 and a send
value of 10000 the with-change total cost is exactly 10678, so the change
amount is 0; the assembled list nevertheless contains a second, change
output (with amount buffer encoding 0), contradicting change inclusion
only for a strictly positive change amount. -/
theorem createSignedTransaction_zero_change_output :
    createSignedTransactionCore [118] [169] [10678] 10000 =
      Except.ok [TxOutput.mk (getAmountBuffer 10000) [118],
        TxOutput.mk (getAmountBuffer 0) [169]] ∧
    sumValues [10678] = 10000 + calculateFee 1 2 3 ∧
    sumValues [10678] - (10000 + calculateFee 1 2 3) = 0 :=
  ⟨rfl, by decide, by decide⟩

/-- C6 (amended): the recipient output always comes first; a change output
is appended exactly when the selected value sum strictly exceeds the
no-change cost value + calculateFee(n, 1, 3), and its amount is the sum
minus the with-change cost value + calculateFee(n, 2, 3), which can be
zero (precisely when the sum equals the with-change cost); otherwise the
list holds only the recipient output. -/
theorem createSignedTransaction_outputs_spec
    (sendScript changeScript utxoValues : List Nat) (value : Nat)
    (outputs : List TxOutput)
    (h : createSignedTransactionCore sendScript changeScript utxoValues value =
      Except.ok outputs) :
    outputs =
      if value + calculateFee utxoValues.length 1 3 < sumValues utxoValues then
        [TxOutput.mk (getAmountBuffer value) sendScript,
          TxOutput.mk
            (getAmountBuffer (sumValues utxoValues -
              (value + calculateFee utxoValues.length 2 3)))
            changeScript]
      else
        [TxOutput.mk (getAmountBuffer value) sendScript] := by
  have harith :
      value + calculateFee utxoValues.length 1 3 -
        calculateFee utxoValues.length 1 3 +
        calculateFee utxoValues.length 2 3 =
        value + calculateFee utxoValues.length 2 3 := by omega
  by_cases hc :
      value + calculateFee utxoValues.length 1 3 < sumValues utxoValues
  · rw [if_pos hc]
    simp only [createSignedTransactionCore] at h
    rw [if_pos hc, harith] at h
    by_cases hin :
        sumValues utxoValues < value + calculateFee utxoValues.length 2 3
    · rw [if_pos hin] at h
      exact absurd h (by simp)
    · rw [if_neg hin, if_pos hc] at h
      exact (Except.ok.inj h).symm
  · rw [if_neg hc]
    simp only [createSignedTransactionCore] at h
    rw [if_neg hc] at h
    by_cases hin :
        sumValues utxoValues < value + calculateFee utxoValues.length 1 3
    · rw [if_pos hin] at h
      exact absurd h (by simp)
    · rw [if_neg hin, if_neg hc] at h
      exact (Except.ok.inj h).symm

/-- Witness for the amended C6 at one selected UTXO of 20000 and a send of
10000: the change branch with change amount 20000 - 10678 = 9322. -/
theorem createSignedTransaction_outputs_spec_witness :
    ([TxOutput.mk (getAmountBuffer 10000) [118],
        TxOutput.mk (getAmountBuffer 9322) [169]] : List TxOutput) =
      if 10000 + calculateFee (List.length [20000]) 1 3 < sumValues [20000] then
        [TxOutput.mk (getAmountBuffer 10000) [118],
          TxOutput.mk
            (getAmountBuffer (sumValues [20000] -
              (10000 + calculateFee (List.length [20000]) 2 3)))
            [169]]
      else
        [TxOutput.mk (getAmountBuffer 10000) [118]] :=
  createSignedTransaction_outputs_spec [118] [169] [20000] 10000
    [TxOutput.mk (getAmountBuffer 10000) [118],
      TxOutput.mk (getAmountBuffer 9322) [169]] rfl

end ChainAbstraction
